import Mathlib

/-!
Verification of the entry-normalization and path-deduplication pipeline of
`pass_import.py` (pass-import 2.4).

The Python code is shallowly embedded as follows:
* a Python `str` is a Lean `String` (in this toolchain a `String` is a list
  of characters, matching Python's sequence-of-characters view);
* a Python value that is either a string or `None` is `PyVal := Option String`
  (`none` is Python `None`);
* an `OrderedDict` entry is an association list `Entry := List (String × PyVal)`
  with the dictionary operations (`dlookup`, `dset`, `derase`, …) acting on the
  first occurrence of a key, preserving insertion order;
* `str.replace` is `pyReplace` (leftmost non-overlapping replacement, made
  total with a fuel argument that is always sufficient for nonempty patterns);
* the `while` loop of `PasswordManager._duplicate_numerise` is modelled with an
  explicit fuel argument returning `Option`: `none` means the loop has not
  finished within the given fuel.
-/

namespace PassImport

/-- A Python value appearing in an entry: a string, or `None`. -/
abbrev PyVal := Option String

/-- Python `str(value)` as used by `"%s: %s" % (key, value)`: `None` prints
as `"None"`. -/
def pyStr : PyVal → String
  | none => "None"
  | some s => s

/-- Python truthiness of a `PyVal`: `None` and `''` are falsy. -/
def truthy : PyVal → Bool
  | none => false
  | some s => !(s = "")

/-- An `OrderedDict` as built by the parsers: keys in insertion order. -/
abbrev Entry := List (String × PyVal)

/-- First-occurrence lookup, `k in d` / `d[k]`. -/
def dlookup (k : String) : Entry → Option PyVal
  | [] => none
  | (k1, v1) :: e => if k1 = k then some v1 else dlookup k e

/-- `d.get(k, dflt)`. -/
def dget (k : String) (dflt : PyVal) (e : Entry) : PyVal :=
  (dlookup k e).getD dflt

/-- `d.get(k, '')`, with the stored value known to be a string at every
modelled call site (`clean` has removed falsy values first); a stored `None`
is mapped to `""` to keep the function total. -/
def dgetStr (k : String) (e : Entry) : String :=
  match dlookup k e with
  | some (some s) => s
  | _ => ""

/-- Remove the first occurrence of key `k` (the removal part of `d.pop(k, dflt)`);
a no-op when `k` is absent, as in Python when a default is supplied. -/
def derase (k : String) : Entry → Entry
  | [] => []
  | (k1, v1) :: e => if k1 = k then e else (k1, v1) :: derase k e

/-- `d[k] = v`: update the first occurrence in place, or append. -/
def dset (k : String) (v : PyVal) : Entry → Entry
  | [] => [(k, v)]
  | (k1, v1) :: e => if k1 = k then (k, v) :: e else (k1, v1) :: dset k v e

/-- `k in d`. -/
def hasKey (k : String) (e : Entry) : Bool :=
  (dlookup k e).isSome

/-! ### Python string primitives -/

/-- The characters removed by Python `str.strip()`: the full set a Python
`str` treats as whitespace — `\t`–`\r` and space, the file/group/record/unit
separators `\x1c`–`\x1f`, next line `\x85`, no-break space `\xa0`, and the
Unicode space separators U+1680, U+2000–U+200A, U+2028, U+2029, U+202F,
U+205F and U+3000. -/
def pyIsSpace (c : Char) : Bool :=
  (0x09 ≤ c.toNat && c.toNat ≤ 0x0d) || c.toNat = 0x20 ||
  (0x1c ≤ c.toNat && c.toNat ≤ 0x1f) || c.toNat = 0x85 || c.toNat = 0xa0 ||
  c.toNat = 0x1680 || (0x2000 ≤ c.toNat && c.toNat ≤ 0x200a) ||
  c.toNat = 0x2028 || c.toNat = 0x2029 || c.toNat = 0x202f ||
  c.toNat = 0x205f || c.toNat = 0x3000

/-- `str.strip()` on the character list. -/
def stripL (l : List Char) : List Char :=
  ((l.dropWhile pyIsSpace).reverse.dropWhile pyIsSpace).reverse

/-- Python `str.strip()`. -/
def pystrip (s : String) : String :=
  ⟨stripL s.data⟩

/-- Worker for `str.replace`: leftmost non-overlapping replacement of `old`
by `new`.  The fuel argument makes the recursion structural; `fuel = s.length`
is always enough when `old` is nonempty (every step consumes at least one
character). -/
def pyReplaceAux (old new : List Char) : Nat → List Char → List Char
  | 0, s => s
  | fuel + 1, s =>
    match s with
    | [] => []
    | c :: cs =>
      if old.isPrefixOf s then new ++ pyReplaceAux old new fuel (s.drop old.length)
      else c :: pyReplaceAux old new fuel cs

/-- Python `s.replace(old, new)` (for nonempty `old`, the only use in the
source). -/
def pyReplace (old new s : String) : String :=
  ⟨pyReplaceAux old.data new.data s.data.length s.data⟩

/-- `PasswordManager._replaces`: apply the substitution table entry by entry,
in table order (Python dicts iterate in insertion order). -/
def replaces (table : List (String × String)) (s : String) : String :=
  table.foldl (fun acc kv => pyReplace kv.1 kv.2 acc) s

/-- `a == b` as a list-of-character test, used instead of `String.startsWith`
to keep everything kernel-reducible. -/
def strStarts (p s : String) : Bool :=
  p.data.isPrefixOf s.data

/-- `s.endswith(p)` analogue. -/
def strEnds (p s : String) : Bool :=
  p.data.isSuffixOf s.data

/-- `os.path.join(a, b)` on POSIX, for the two-argument uses in the source. -/
def pjoin (a b : String) : String :=
  if strStarts "/" b then b
  else if a = "" || strEnds "/" a then a ++ b
  else a ++ "/" ++ b

/-- Decimal digit character. -/
def digitChar (n : Nat) : Char :=
  Char.ofNat (48 + n)

/-- Worker for `str(n)`: standard decimal notation, no leading zeros. -/
def pyNatStrAux : Nat → Nat → List Char → List Char
  | 0, _, acc => acc
  | fuel + 1, n, acc =>
    if n < 10 then digitChar n :: acc
    else pyNatStrAux fuel (n / 10) (digitChar (n % 10) :: acc)

/-- Python `str(n)` for a natural number. -/
def pyNatStr (n : Nat) : String :=
  ⟨pyNatStrAux (n + 1) n []⟩

/-! ### The substitution tables of `PasswordManager.__init__` -/

/-- `self.cleans`, in dict insertion order. -/
def cleans : List (String × String) :=
  [(" ", "_"), ("&", "and"), ("@", "At"), ("\x27", ""), ("[", ""),
   ("]", ""), ("/", "-")]

/-- `self.protocols`. -/
def protocols : List String :=
  ["http://", "https://"]

/-- `self.invalids`. -/
def invalids : List String :=
  ["<", ">", ":", "\"", "/", "\\", "|", "?", "*", "\x00"]

/-- `PasswordManager._clean_protocol`. -/
def cleanProtocol (s : String) : String :=
  replaces (protocols.map (fun p => (p, ""))) s

/-- `PasswordManager._clean_group`: the dict is built from `invalids` zipped
with the separator, then `/` and `\` are overridden to `os.sep` (= `"/"`),
keeping their original insertion position. -/
def cleanGroup (sep : String) (s : String) : String :=
  replaces [("<", sep), (">", sep), (":", sep), ("\"", sep), ("/", "/"),
            ("\\", "/"), ("|", sep), ("?", sep), ("*", sep), ("\x00", sep)] s

/-- `PasswordManager._convert`. -/
def convert (sep : String) (s : String) : String :=
  replaces (invalids.map (fun c => (c, sep))) s

/-- `PasswordManager._clean_cmdline`. -/
def cleanCmdline (s : String) : String :=
  replaces cleans (pystrip s)

/-! ### Path building (`_create_path`, `clean`, `_duplicate_paths`) -/

/-- `PasswordManager._create_path(entry, path, clean, convert)`: pick the first
of `title`, `login`, `url` present in the entry, normalize it and join it to
`path`; fall back to `notitle` for a missing or empty leaf.  Returns the new
path together with the entry after `entry.pop('title', '')`. -/
def createPath (cl cv : Bool) (sep : String) (e : Entry) (path : String) :
    String × Entry :=
  let key := if hasKey "title" e then some "title"
             else if hasKey "login" e then some "login"
             else if hasKey "url" e then some "url"
             else none
  match key with
  | some k =>
    let t := cleanProtocol (dgetStr k e)
    let t := if cl then cleanCmdline t else t
    let t := if cv then convert sep t else t
    let p := pjoin path t
    let p := if t = "" then pjoin p "notitle" else p
    (p, derase "title" e)
  | none => (pjoin path "notitle", derase "title" e)

/-- The per-entry body of `PasswordManager.clean`: drop falsy-valued keys,
pop `group`, normalize it, and set `path` from `_create_path`. -/
def cleanEntry (cl cv : Bool) (sep : String) (e : Entry) : Entry :=
  let e1 := e.filter (fun kv => truthy kv.2)
  let g := dgetStr "group" e1
  let e2 := derase "group" e1
  let r := createPath cl cv sep e2 (cleanGroup sep (cleanProtocol g))
  dset "path" (some r.1) r.2

/-- The `path` currently assigned to an entry (`entry.get('path', '')`). -/
def pathOf (e : Entry) : String :=
  dgetStr "path" e

/-- `PasswordManager._duplicate_paths`: for every path shared by at least two
entries, re-derive each such entry's path with `_create_path` from the shared
path.  The grouping is computed on the incoming batch, and each entry is
rewritten independently, so a map over the batch is faithful to the
index-by-index mutation of the source. -/
def duplicatePaths (cl cv : Bool) (sep : String) (data : List Entry) :
    List Entry :=
  let paths := data.map pathOf
  data.map (fun e =>
    if 2 ≤ paths.count (pathOf e) then
      let r := createPath cl cv sep e (pathOf e)
      dset "path" (some r.1) r.2
    else e)

/-! ### Numeric-suffix pass (`_duplicate_numerise`) -/

/-- `re.search('%s(\\d+)$' % sep, path) is not None` for a separator without
regex metacharacters (the default `-`): some position of `path` carries `sep`
followed by one or more digits running to the end of the string. -/
def hasNumSuffixL (sep : List Char) : List Char → Bool
  | [] => false
  | c :: cs =>
    (sep.isPrefixOf (c :: cs) &&
      (decide ((c :: cs).drop sep.length ≠ []) &&
        ((c :: cs).drop sep.length).all Char.isDigit)) ||
    hasNumSuffixL sep cs

/-- String version of `hasNumSuffixL`. -/
def hasNumSuffix (sep path : String) : Bool :=
  hasNumSuffixL sep.data path.data

/-- The `while path in seen` loop of `_duplicate_numerise`, with fuel:
`none` means the loop has not terminated within `fuel` iterations. -/
def numeriseLoop (sep : String) (seen : List String) :
    Nat → String → Nat → Option String
  | 0, _, _ => none
  | fuel + 1, path, ii =>
    if path ∈ seen then
      if hasNumSuffix sep path then
        numeriseLoop sep seen fuel
          (pyReplace (sep ++ pyNatStr ii) (sep ++ pyNatStr (ii + 1)) path)
          (ii + 1)
      else
        numeriseLoop sep seen fuel (path ++ sep ++ pyNatStr ii) ii
    else some path

/-- The entry loop of `_duplicate_numerise`, threading the `seen` list: an
entry whose path is fresh is recorded unchanged; a colliding entry runs the
inner loop (starting at `ii = 1`) and is rewritten to the loop's result. -/
def numeriseGo (sep : String) (fuel : Nat) :
    List Entry → List String → Option (List Entry)
  | [], _ => some []
  | e :: rest, seen =>
    let path := pathOf e
    if path ∈ seen then
      match numeriseLoop sep seen fuel path 1 with
      | none => none
      | some p =>
        (numeriseGo sep fuel rest (seen ++ [p])).map
          (fun es => dset "path" (some p) e :: es)
    else
      (numeriseGo sep fuel rest (seen ++ [path])).map (fun es => e :: es)

/-- `PasswordManager._duplicate_numerise`. -/
def duplicateNumerise (sep : String) (fuel : Nat) (data : List Entry) :
    Option (List Entry) :=
  numeriseGo sep fuel data []

/-- `PasswordManager.clean(clean, convert)`: per-entry cleaning, then the
group-collision pass, then the numeric-suffix pass. -/
def clean (cl cv : Bool) (sep : String) (fuel : Nat) (data : List Entry) :
    Option (List Entry) :=
  duplicateNumerise sep fuel (duplicatePaths cl cv sep (data.map (cleanEntry cl cv sep)))

/-! ### CSV parsing (`PasswordManagerCSV`) -/

/-- The canonical key set `PasswordManager.keyslist`. -/
def keyslist : List String :=
  ["title", "password", "login", "url", "comments", "group", "binary"]

/-- Lookup in a per-manager `keys` table with a string default
(`self.keys.get(key, '')`). -/
def tblGet (tbl : List (String × String)) (k : String) : String :=
  match tbl.find? (fun kv => kv.1 = k) with
  | some kv => kv.2
  | none => ""

/-- `row.pop(k, None)`: the value (which may itself be `None` when the CSV
row was shorter than the header), and the row without that column. -/
def popRow (k : String) (row : Entry) : PyVal × Entry :=
  ((dlookup k row).getD none, derase k row)

/-- One step of the canonical-key loop of `PasswordManagerCSV.parse`:
`entry[key] = row.pop(self.keys.get(key, ''), None)`. -/
def csvStep (keys : List (String × String)) (st : Entry × Entry)
    (key : String) : Entry × Entry :=
  let r := popRow (tblGet keys key) st.2
  (dset key r.1 st.1, r.2)

/-- One step of the extra-fields loop: `entry[col] = row.get(col, None)`. -/
def extraStep (row : Entry) (e : Entry) (kv : String × PyVal) : Entry :=
  dset kv.1 ((dlookup kv.1 row).getD none) e

/-- One iteration of the row loop of `PasswordManagerCSV.parse`: build the
canonical entry, then (in extra mode) append the leftover native columns. -/
def csvEntry (keys : List (String × String)) (extra : Bool) (row : Entry) :
    Entry :=
  let st := keyslist.foldl (csvStep keys) ([], row)
  if extra then st.2.foldl (extraStep st.2) st.1
  else st.1

/-- `PasswordManagerCSV._checkformat`: every native column of the manager's
`keys` table must appear among the CSV field names (the source raises
`FormatError` at the first missing one). -/
def checkformat (keys : List (String × String)) (fieldnames : List String) :
    Bool :=
  (keys.map (fun kv => kv.2)).all (fun k => k ∈ fieldnames)

/-- `PasswordManagerCSV.parse`: the format check runs before any row is read,
so a failing check appends nothing to `self.data`. -/
def parseCSV (keys : List (String × String)) (extra : Bool)
    (fieldnames : List String) (rows : List Entry) (data : List Entry) :
    Except Unit (List Entry) :=
  if checkformat keys fieldnames then
    Except.ok (data ++ rows.map (csvEntry keys extra))
  else Except.error ()

/-- The batch observable after `parse` returns or raises: on `FormatError`
the exception propagates before any append, leaving `data` unchanged. -/
def dataAfterParseCSV (keys : List (String × String)) (extra : Bool)
    (fieldnames : List String) (rows : List Entry) (data : List Entry) :
    List Entry :=
  match parseCSV keys extra fieldnames rows data with
  | Except.ok d => d
  | Except.error _ => data

/-! ### PIF value extraction (`PasswordManagerPIF._getvalue`) -/

/-- `d.pop(k, dflt)` on a JSON object (values are strings or `null`). -/
def popD (d : Entry) (k : String) (dflt : PyVal) : PyVal × Entry :=
  match dlookup k d with
  | some v => (v, derase k d)
  | none => (dflt, d)

/-- `field.get('name', '')`. -/
def fieldName (f : Entry) : PyVal :=
  (dlookup "name" f).getD (some "")

/-- `field.get('value', None)`. -/
def fieldValue (f : Entry) : PyVal :=
  (dlookup "value" f).getD none

/-- The field-list scan of `_getvalue`: find the first field object whose
`name` equals `jsonkey`, return its `value` and the list with that field
removed (`fields.pop(fields.index(field))`). -/
def findField (jsonkey : String) : List Entry → Option (PyVal × List Entry)
  | [] => none
  | f :: fs =>
    if fieldName f = some jsonkey then some (fieldValue f, fs)
    else (findField jsonkey fs).map (fun r => (r.1, f :: r.2))

/-- `PasswordManagerPIF._getvalue(jsonkey, item, scontent, fields)`: pop from
the top-level item, let a popped secure-contents value override it, and only
when the result is `None` scan (and consume from) the field list.  Returns
the value and the three updated containers. -/
def getvalue (jsonkey : String) (item scontent : Entry) (fields : List Entry) :
    PyVal × Entry × Entry × List Entry :=
  let r1 := popD item jsonkey none
  let r2 := popD scontent jsonkey r1.1
  match r2.1 with
  | some s => (some s, r1.2, r2.2, fields)
  | none =>
    match findField jsonkey fields with
    | some r => (r.1, r1.2, r2.2, r.2)
    | none => (none, r1.2, r2.2, fields)

/-! ### Serialization (`PasswordManager.get`) and the line-format recovery -/

/-- The field lines of `get`: one `key: value` line per remaining field, in
order, skipping the `path` key. -/
def serializeFields : Entry → String
  | [] => ""
  | (k, v) :: e =>
    (if k = "path" then "" else k ++ ": " ++ pyStr v ++ "\n") ++
      serializeFields e

/-- `PasswordManager.get(entry)`: first line is `entry.pop('password', '')`,
then the remaining fields. -/
def getString (e : Entry) : String :=
  pyStr ((dlookup "password" e).getD (some "")) ++ "\n" ++
    serializeFields (derase "password" e)

/-- Split a character list at every newline (Python `s.split('\n')`). -/
def splitLines : List Char → List (List Char)
  | [] => [[]]
  | c :: cs =>
    match splitLines cs with
    | [] => [[]]
    | l :: ls => if c = '\n' then [] :: l :: ls else (c :: l) :: ls

/-- Split a line at its first `": "` into key and value; a line without the
separator is all key. -/
def splitKVchars : List Char → List Char × List Char
  | [] => ([], [])
  | c :: cs =>
    if c = ':' ∧ cs.take 1 = [' '] then ([], cs.drop 1)
    else ((c :: (splitKVchars cs).1), (splitKVchars cs).2)

/-- Recovery of the password from the serialized form: the first line. -/
def recoverPassword (s : String) : String :=
  ⟨(splitLines s.data).headD []⟩

/-- Find the value of the first line whose key part is `key`. -/
def findKV (key : List Char) : List (List Char) → Option (List Char)
  | [] => none
  | l :: ls =>
    if (splitKVchars l).1 = key then some (splitKVchars l).2
    else findKV key ls

/-- Recovery of a named field from the serialized form: split off the first
line, then scan the subsequent `key: value` lines. -/
def recoverField (k s : String) : Option String :=
  (findKV k.data (splitLines s.data).tail).map (fun l => ⟨l⟩)

/-- `True` when the character list contains no `": "` occurrence (used to
state when a serialized key splits back to itself). -/
def noColonSpace : List Char → Bool
  | [] => true
  | c :: cs => !(c = ':' ∧ cs.take 1 = [' ']) && noColonSpace cs

/-! ### Character-map view of the single-character substitution tables

Every pattern in `cleans` and in the `_convert`/`_clean_group` tables is a
single character, so the sequential `str.replace` passes compose into one
character-to-string map.  These definitions support the idempotence and
refinement proofs. -/

/-- Apply a character-to-string map across a list (`flat_map`). -/
def charMap (f : Char → List Char) : List Char → List Char
  | [] => []
  | c :: cs => f c ++ charMap f cs

/-- The character map of one single-character `str.replace`. -/
def rep1 (a : Char) (w : List Char) (c : Char) : List Char :=
  if c = a then w else [c]

/-- The characters of `self.invalids`. -/
def invalidChars : List Char :=
  ['<', '>', ':', '"', '/', '\\', '|', '?', '*', '\x00']

/-- The composed character map of `_convert` with single-character
separator `d`. -/
def Fconv (d c : Char) : List Char :=
  if c ∈ invalidChars then [d] else [c]

/-- The composed character map of the `cleans` table. -/
def Fclean (c : Char) : List Char :=
  if c = ' ' then ['_']
  else if c = '&' then ['a', 'n', 'd']
  else if c = '@' then ['A', 't']
  else if c = '\x27' then []
  else if c = '[' then []
  else if c = ']' then []
  else if c = '/' then ['-']
  else [c]

/-- The pattern characters of the `cleans` table. -/
def cleanChars : List Char :=
  [' ', '&', '@', '\x27', '[', ']', '/']

/-- The character map of a whole single-character substitution table applied
in sequence: the head substitution is applied first, and the rest of the
table then acts on its output. -/
def tableFun : List (Char × List Char) → Char → List Char
  | [], c => [c]
  | aw :: tbl, c => charMap (tableFun tbl) (rep1 aw.1 aw.2 c)

/-- The `_convert` table with the default separator, as a character table. -/
def convTbl : List (Char × List Char) :=
  invalidChars.map (fun a => (a, ['-']))

/-- The `cleans` table as a character table. -/
def cleanTbl : List (Char × List Char) :=
  [(' ', ['_']), ('&', ['a', 'n', 'd']), ('@', ['A', 't']), ('\x27', []),
   ('[', []), (']', []), ('/', ['-'])]

/-- The spec's description of the command-line-friendly transliteration,
transcribed literally (trim, then the ordered sequence of literal
replacements), amended with the `/`→`-` substitution that the code's table
also contains as its last entry. -/
def cleanSpecSeq (s : String) : String :=
  pyReplace "/" "-" (pyReplace "]" "" (pyReplace "[" "" (pyReplace "\x27" ""
    (pyReplace "@" "At" (pyReplace "&" "and" (pyReplace " " "_" (pystrip s)))))))

/-! ## Theorems -/

/-! ### Association-list and string lemmas -/

theorem data_append (s t : String) : (s ++ t).data = s.data ++ t.data := by
  cases s; cases t; rfl

theorem mk_data (s : String) : (⟨s.data⟩ : String) = s := by
  cases s; rfl

theorem string_eq_of_data (s t : String) (h : s.data = t.data) : s = t := by
  cases s; cases t; cases h; rfl

theorem dlookup_dset_self (k : String) (v : PyVal) (e : Entry) :
    dlookup k (dset k v e) = some v := by
  induction e with
  | nil => simp [dset, dlookup]
  | cons kv e ih =>
    obtain ⟨k1, v1⟩ := kv
    by_cases h : k1 = k
    · simp [dset, h, dlookup]
    · simp [dset, h, dlookup, ih]

theorem dlookup_dset_ne (k1 k : String) (v : PyVal) (e : Entry) (h : k1 ≠ k) :
    dlookup k (dset k1 v e) = dlookup k e := by
  induction e with
  | nil => simp [dset, dlookup, h]
  | cons kv e ih =>
    obtain ⟨k2, v2⟩ := kv
    by_cases h2 : k2 = k1
    · subst h2; simp [dset, dlookup, h]
    · simp only [dset, if_neg h2, dlookup]
      by_cases h3 : k2 = k
      · simp [h3]
      · simp [h3, ih]

theorem dlookup_derase_ne (k1 k : String) (e : Entry) (h : k1 ≠ k) :
    dlookup k (derase k1 e) = dlookup k e := by
  induction e with
  | nil => simp [derase]
  | cons kv e ih =>
    obtain ⟨k2, v2⟩ := kv
    by_cases h2 : k2 = k1
    · subst h2
      have hk : k2 ≠ k := h
      simp [derase, dlookup, hk]
    · simp only [derase, if_neg h2, dlookup]
      by_cases h3 : k2 = k
      · simp [h3]
      · simp [h3, ih]

theorem derase_dset_comm (k1 k2 : String) (v : PyVal) (e : Entry)
    (h : k1 ≠ k2) : derase k1 (dset k2 v e) = dset k2 v (derase k1 e) := by
  induction e with
  | nil => simp [dset, derase, Ne.symm h]
  | cons kv e ih =>
    obtain ⟨k3, v3⟩ := kv
    by_cases h2 : k3 = k2
    · subst h2
      have : k3 ≠ k1 := fun hh => h (hh ▸ rfl)
      simp [dset, derase, this, Ne.symm h]
    · by_cases h3 : k3 = k1
      · subst h3; simp [dset, derase, h2, Ne.symm h]
      · simp [dset, derase, h2, h3, ih]

theorem derase_sublist (k : String) (e : Entry) :
    List.Sublist (derase k e) e := by
  induction e with
  | nil => simp [derase]
  | cons kv e ih =>
    obtain ⟨k1, v1⟩ := kv
    by_cases h : k1 = k
    · simp [derase, h, List.sublist_cons_self]
    · simpa [derase, h] using List.Sublist.cons₂ (k1, v1) ih

theorem dlookup_mem (k : String) (v : PyVal) (e : Entry)
    (h : dlookup k e = some v) : (k, v) ∈ e := by
  induction e with
  | nil => simp [dlookup] at h
  | cons kv e ih =>
    obtain ⟨k1, v1⟩ := kv
    by_cases h1 : k1 = k
    · subst h1
      rw [dlookup, if_pos rfl] at h
      cases h
      exact List.mem_cons_self _ _
    · rw [dlookup, if_neg h1] at h
      exact List.mem_cons_of_mem _ (ih h)

theorem pathOf_dset (p : String) (e : Entry) :
    pathOf (dset "path" (some p) e) = p := by
  rw [pathOf, dgetStr, dlookup_dset_self]

/-! ### C10: `get` excludes the `path` key -/

theorem serializeFields_dset_path (v : PyVal) (e : Entry) :
    serializeFields (dset "path" v e) = serializeFields e := by
  induction e with
  | nil => simp [dset, serializeFields]
  | cons kv e ih =>
    obtain ⟨k1, v1⟩ := kv
    by_cases h : k1 = "path"
    · subst h; simp [dset, serializeFields]
    · simp [dset, h, serializeFields, ih]

theorem serializeFields_derase_path (e : Entry) :
    serializeFields (derase "path" e) = serializeFields e := by
  induction e with
  | nil => simp [derase]
  | cons kv e ih =>
    obtain ⟨k1, v1⟩ := kv
    by_cases h : k1 = "path"
    · subst h; simp [derase, serializeFields]
    · simp [derase, h, serializeFields, ih]

/-- C10: the serialized secret content produced by `get` never carries the
`path` field: erasing the `path` key does not change the output, and setting
`path` to any value does not change the output either.  The hypothesis
confines the statement to entries on which the Python `get` is defined
(a present `password` is a string, as guaranteed after `clean`). -/
theorem C10_get_excludes_path (e : Entry) (v : PyVal)
    (_hpw : dlookup "password" e ≠ some none) :
    getString (dset "path" v e) = getString e ∧
    getString (derase "path" e) = getString e := by
  have hne : "path" ≠ "password" := by decide
  constructor
  · rw [getString, getString, dlookup_dset_ne _ _ _ _ hne,
      derase_dset_comm _ _ _ _ (Ne.symm hne), serializeFields_dset_path]
  · rw [getString, getString, dlookup_derase_ne _ _ _ hne]
    have : derase "password" (derase "path" e) = derase "path" (derase "password" e) := by
      clear _hpw
      induction e with
      | nil => simp [derase]
      | cons kv e ih =>
        obtain ⟨k1, v1⟩ := kv
        by_cases h1 : k1 = "path"
        · subst h1; simp [derase]
        · by_cases h2 : k1 = "password"
          · subst h2; simp [derase]
          · simp [derase, h1, h2, ih]
    rw [this, serializeFields_derase_path]

theorem C10_witness :
    dlookup "password" [("login", some "u"), ("password", some "p"),
        ("path", some "x")] ≠ some none ∧
    getString (dset "path" (some "other") [("login", some "u"),
        ("password", some "p"), ("path", some "x")]) =
      getString [("login", some "u"), ("password", some "p"),
        ("path", some "x")] :=
  ⟨by decide,
   (C10_get_excludes_path [("login", some "u"), ("password", some "p"),
      ("path", some "x")] (some "other") (by decide)).1⟩

/-! ### C1: paths are pairwise distinct after `clean` -/

theorem numeriseLoop_not_mem (sep : String) (seen : List String) :
    ∀ fuel path ii q, numeriseLoop sep seen fuel path ii = some q →
      q ∉ seen := by
  intro fuel
  induction fuel with
  | zero => intro path ii q h; simp [numeriseLoop] at h
  | succ n ih =>
    intro path ii q h
    by_cases hmem : path ∈ seen
    · rw [numeriseLoop, if_pos hmem] at h
      by_cases hs : hasNumSuffix sep path
      · rw [if_pos hs] at h; exact ih _ _ _ h
      · rw [if_neg hs] at h; exact ih _ _ _ h
    · rw [numeriseLoop, if_neg hmem] at h
      cases h
      exact hmem

theorem numeriseGo_nodup (sep : String) (fuel : Nat) :
    ∀ es seen out, numeriseGo sep fuel es seen = some out → seen.Nodup →
      (seen ++ out.map pathOf).Nodup := by
  intro es
  induction es with
  | nil =>
    intro seen out h hn
    rw [numeriseGo] at h
    cases h
    simpa using hn
  | cons e rest ih =>
    intro seen out h hn
    simp only [numeriseGo] at h
    by_cases hmem : pathOf e ∈ seen
    · rw [if_pos hmem] at h
      cases hloop : numeriseLoop sep seen fuel (pathOf e) 1 with
      | none => rw [hloop] at h; simp at h
      | some p =>
        rw [hloop] at h
        dsimp only at h
        rw [Option.map_eq_some'] at h
        obtain ⟨es2, hrec, hout⟩ := h
        have hp : p ∉ seen := numeriseLoop_not_mem _ _ _ _ _ _ hloop
        have h2 : ((seen ++ [p]) ++ es2.map pathOf).Nodup :=
          ih _ _ hrec (by
            rw [List.nodup_append]
            exact ⟨hn, List.nodup_singleton _, by simpa using hp⟩)
        subst hout
        simpa [pathOf_dset] using h2
    · rw [if_neg hmem] at h
      rw [Option.map_eq_some'] at h
      obtain ⟨es2, hrec, hout⟩ := h
      have h2 : ((seen ++ [pathOf e]) ++ es2.map pathOf).Nodup :=
        ih _ _ hrec (by
          rw [List.nodup_append]
          exact ⟨hn, List.nodup_singleton _, by simpa using hmem⟩)
      subst hout
      simpa using h2

/-- C1: whenever `clean` (group-collision pass followed by the numeric-suffix
pass) completes, the `path` values of the resulting batch are pairwise
distinct. -/
theorem C1_clean_paths_nodup (cl cv : Bool) (sep : String) (fuel : Nat)
    (data out : List Entry) (h : clean cl cv sep fuel data = some out) :
    (out.map pathOf).Nodup := by
  rw [clean, duplicateNumerise] at h
  simpa using numeriseGo_nodup sep fuel _ [] out h List.nodup_nil

theorem C1_witness :
    clean false false "-" 20 [[("title", some "Example")],
        [("title", some "Example")], [("title", some "Other")]] =
      some [[("path", some "Example/notitle")],
        [("path", some "Example/notitle-1")], [("path", some "Other")]] ∧
    (([[("path", some "Example/notitle")],
        [("path", some "Example/notitle-1")],
        [("path", some "Other")]] : List Entry).map pathOf).Nodup :=
  ⟨by decide,
   C1_clean_paths_nodup false false "-" 20
     [[("title", some "Example")], [("title", some "Example")],
      [("title", some "Other")]]
     [[("path", some "Example/notitle")], [("path", some "Example/notitle-1")],
      [("path", some "Other")]]
     (by decide)⟩

/-! ### C2: the concrete paths assigned to identically-titled entries -/

/-- C2 (counterexample): two entries with title `Example`, no group and the
default separator do *not* receive `Example` and `Example-1`: because
`_create_path` consumed `title` during the first pass, the group-collision
pass re-derives the leaf as `notitle`, yielding `Example/notitle` and
`Example/notitle-1`. -/
theorem C2_counterexample :
    (clean false false "-" 20 [[("title", some "Example")],
        [("title", some "Example")]]).map (fun l => l.map pathOf) =
      some ["Example/notitle", "Example/notitle-1"] ∧
    some ["Example/notitle", "Example/notitle-1"] ≠
      (some ["Example", "Example-1"] : Option (List String)) := by
  constructor
  · decide
  · decide

/-- C2 (amended): for two entries with title `Example` and no group, `clean`
assigns `Example/notitle` to the first entry in parse order and
`Example/notitle-1` to the second; a third identical entry receives
`Example/notitle-2`.  First-seen parse order still wins the unsuffixed
path. -/
theorem C2_amended_notitle_paths :
    (clean false false "-" 20 [[("title", some "Example")],
        [("title", some "Example")]]).map (fun l => l.map pathOf) =
      some ["Example/notitle", "Example/notitle-1"] ∧
    (clean false false "-" 20 [[("title", some "Example")],
        [("title", some "Example")], [("title", some "Example")]]).map
        (fun l => l.map pathOf) =
      some ["Example/notitle", "Example/notitle-1", "Example/notitle-2"] := by
  constructor
  · decide
  · decide

/-! ### C4: the numeric-suffix pass does not always terminate -/

theorem digitChar_ne_zero (n : Nat) (h1 : 1 ≤ n) (h2 : n < 10) :
    digitChar n ≠ '0' := by
  interval_cases n <;> decide

theorem pyNatStrAux_head :
    ∀ fuel n acc, n < fuel → 1 ≤ n →
      ∃ c t, pyNatStrAux fuel n acc = c :: t ∧ c ≠ '0' := by
  intro fuel
  induction fuel with
  | zero => intro n acc h1 h2; omega
  | succ f ih =>
    intro n acc hlt hpos
    by_cases h10 : n < 10
    · exact ⟨digitChar n, acc, by rw [pyNatStrAux, if_pos h10],
        digitChar_ne_zero n hpos h10⟩
    · rw [pyNatStrAux, if_neg h10]
      have hdiv : n / 10 < n := Nat.div_lt_self (by omega) (by omega)
      exact ih (n / 10) _ (by omega) (by
        rw [Nat.one_le_div_iff (by omega)]
        omega)

theorem pyNatStr_head (n : Nat) (h : 1 ≤ n) :
    ∃ c t, (pyNatStr n).data = c :: t ∧ c ≠ '0' :=
  pyNatStrAux_head (n + 1) n [] (Nat.lt_succ_self n) h

theorem pyReplaceAux_of_no_match (old new : List Char) :
    ∀ s, (∀ t, List.IsSuffix t s → ¬ old.isPrefixOf t) →
      ∀ fuel, pyReplaceAux old new fuel s = s := by
  intro s
  induction s with
  | nil => intro h fuel; cases fuel <;> rfl
  | cons c cs ih =>
    intro h fuel
    cases fuel with
    | zero => rfl
    | succ f =>
      simp only [pyReplaceAux]
      rw [if_neg (h (c :: cs) (List.suffix_refl _))]
      exact congrArg (c :: ·)
        (ih (fun t ht => h t (ht.trans (List.suffix_cons c cs))) f)

theorem replace_a007 (ii : Nat) (hii : 1 ≤ ii) (w : String) :
    pyReplace ("-" ++ pyNatStr ii) w "a-007" = "a-007" := by
  obtain ⟨c, t, hct, hc⟩ := pyNatStr_head ii hii
  have hdata : ("-" ++ pyNatStr ii).data = '-' :: c :: t := by
    rw [data_append, hct]; rfl
  rw [pyReplace, hdata]
  have hrepl : pyReplaceAux ('-' :: c :: t) w.data
      ("a-007" : String).data.length ("a-007" : String).data =
      ("a-007" : String).data := by
    apply pyReplaceAux_of_no_match
    intro u hu hpre
    have hu2 : u ∈ List.tails (("a-007" : String).data) :=
      (List.mem_tails _ _).mpr hu
    have hd : List.tails (("a-007" : String).data) =
        [['a', '-', '0', '0', '7'], ['-', '0', '0', '7'], ['0', '0', '7'],
         ['0', '7'], ['7'], []] := rfl
    rw [hd] at hu2
    rw [List.isPrefixOf_iff_prefix] at hpre
    fin_cases hu2
    · rw [List.cons_prefix_cons] at hpre
      exact absurd hpre.1 (by decide)
    · rw [List.cons_prefix_cons] at hpre
      rw [List.cons_prefix_cons] at hpre
      exact hc hpre.2.1
    · rw [List.cons_prefix_cons] at hpre
      exact absurd hpre.1 (by decide)
    · rw [List.cons_prefix_cons] at hpre
      exact absurd hpre.1 (by decide)
    · rw [List.cons_prefix_cons] at hpre
      exact absurd hpre.1 (by decide)
    · simp at hpre
  rw [hrepl]

theorem numeriseLoop_a007 :
    ∀ fuel ii, 1 ≤ ii →
      numeriseLoop "-" ["a-007"] fuel "a-007" ii = none := by
  intro fuel
  induction fuel with
  | zero => intro ii _; rfl
  | succ f ih =>
    intro ii hii
    rw [numeriseLoop, if_pos (by simp), if_pos (by decide)]
    rw [replace_a007 ii hii]
    exact ih (ii + 1) (by omega)

/-- C4: the numeric-suffix pass does *not* terminate on every batch of path
strings.  With the default separator, a batch of two entries both carrying
path `a-007` drives the `while` loop of `_duplicate_numerise` into an
infinite loop: the trailing-digit regex matches `-007`, but
`path.replace('-' + str(ii), ...)` never finds `-<ii>` in the path because
`str(ii)` never has a leading zero, so the path is never rewritten and stays
in the seen set forever.  Formally: the fuelled model of the pass returns
`none` for every fuel. -/
theorem C4_numerise_diverges (fuel : Nat) :
    duplicateNumerise "-" fuel
      [[("path", some "a-007")], [("path", some "a-007")]] = none := by
  have hp : pathOf [("path", some "a-007")] = "a-007" := rfl
  rw [duplicateNumerise]
  simp only [numeriseGo, hp]
  rw [if_neg (List.not_mem_nil _)]
  rw [if_pos (by simp)]
  rw [show ([] : List String) ++ ["a-007"] = ["a-007"] from rfl]
  rw [numeriseLoop_a007 fuel 1 (by omega)]
  simp

theorem replace_t007 (ii : Nat) (hii : 1 ≤ ii) (w : String) :
    pyReplace ("-" ++ pyNatStr ii) w "t/a-007" = "t/a-007" := by
  obtain ⟨c, t, hct, hc⟩ := pyNatStr_head ii hii
  have hdata : ("-" ++ pyNatStr ii).data = '-' :: c :: t := by
    rw [data_append, hct]; rfl
  rw [pyReplace, hdata]
  have hrepl : pyReplaceAux ('-' :: c :: t) w.data
      ("t/a-007" : String).data.length ("t/a-007" : String).data =
      ("t/a-007" : String).data := by
    apply pyReplaceAux_of_no_match
    intro u hu hpre
    have hu2 : u ∈ List.tails (("t/a-007" : String).data) :=
      (List.mem_tails _ _).mpr hu
    have hd : List.tails (("t/a-007" : String).data) =
        [['t', '/', 'a', '-', '0', '0', '7'], ['/', 'a', '-', '0', '0', '7'],
         ['a', '-', '0', '0', '7'], ['-', '0', '0', '7'], ['0', '0', '7'],
         ['0', '7'], ['7'], []] := rfl
    rw [hd] at hu2
    rw [List.isPrefixOf_iff_prefix] at hpre
    fin_cases hu2
    · rw [List.cons_prefix_cons] at hpre
      exact absurd hpre.1 (by decide)
    · rw [List.cons_prefix_cons] at hpre
      exact absurd hpre.1 (by decide)
    · rw [List.cons_prefix_cons] at hpre
      exact absurd hpre.1 (by decide)
    · rw [List.cons_prefix_cons] at hpre
      rw [List.cons_prefix_cons] at hpre
      exact hc hpre.2.1
    · rw [List.cons_prefix_cons] at hpre
      exact absurd hpre.1 (by decide)
    · rw [List.cons_prefix_cons] at hpre
      exact absurd hpre.1 (by decide)
    · rw [List.cons_prefix_cons] at hpre
      exact absurd hpre.1 (by decide)
    · simp at hpre
  rw [hrepl]

theorem numeriseLoop_t007 :
    ∀ fuel ii, 1 ≤ ii →
      numeriseLoop "-" ["t/a-007"] fuel "t/a-007" ii = none := by
  intro fuel
  induction fuel with
  | zero => intro ii _; rfl
  | succ f ih =>
    intro ii hii
    rw [numeriseLoop, if_pos (by simp), if_pos (by decide)]
    rw [replace_t007 ii hii]
    exact ih (ii + 1) (by omega)

/-- The divergence of C4 is reachable from the public pipeline: two entries
with title `t` and login `a-007` collide on path `t`, the group-collision
pass re-derives both paths as `t/a-007` from the login, and the
numeric-suffix pass then loops forever, so the whole of `clean` diverges. -/
theorem clean_diverges_on_login_suffix (fuel : Nat) :
    clean false false "-" fuel
      [[("title", some "t"), ("login", some "a-007")],
       [("title", some "t"), ("login", some "a-007")]] = none := by
  rw [clean]
  rw [show duplicatePaths false false "-"
      (List.map (cleanEntry false false "-")
        [[("title", some "t"), ("login", some "a-007")],
         [("title", some "t"), ("login", some "a-007")]]) =
      [[("login", some "a-007"), ("path", some "t/a-007")],
       [("login", some "a-007"), ("path", some "t/a-007")]] from by decide]
  have hp : pathOf [("login", some "a-007"), ("path", some "t/a-007")] =
      "t/a-007" := rfl
  rw [duplicateNumerise]
  simp only [numeriseGo, hp]
  rw [if_neg (List.not_mem_nil _)]
  rw [if_pos (by simp)]
  rw [show ([] : List String) ++ ["t/a-007"] = ["t/a-007"] from rfl]
  rw [numeriseLoop_t007 fuel 1 (by omega)]
  simp

/-! ### C8: a missing required CSV column aborts the parse with no records -/

/-- C8: when the CSV header lacks at least one of the manager's required
native columns, `parse` raises `FormatError` (modelled as `Except.error`)
and the batch is exactly as it was before the call. -/
theorem C8_missing_column_error (keys : List (String × String)) (extra : Bool)
    (fieldnames : List String) (rows data : List Entry)
    (h : ∃ kv ∈ keys, kv.2 ∉ fieldnames) :
    parseCSV keys extra fieldnames rows data = Except.error () ∧
    dataAfterParseCSV keys extra fieldnames rows data = data := by
  have hc : checkformat keys fieldnames = false := by
    obtain ⟨kv, hmem, hnot⟩ := h
    rw [checkformat, List.all_eq_false]
    exact ⟨kv.2, List.mem_map_of_mem _ hmem, by simpa using hnot⟩
  constructor
  · rw [parseCSV, if_neg (by simp [hc])]
  · rw [dataAfterParseCSV, parseCSV, if_neg (by simp [hc])]

theorem C8_witness :
    (∃ kv ∈ ([("title", "name"), ("password", "password"),
        ("login", "username"), ("url", "url")] : List (String × String)),
      kv.2 ∉ (["name", "username", "url"] : List String)) ∧
    parseCSV [("title", "name"), ("password", "password"),
        ("login", "username"), ("url", "url")] false
        ["name", "username", "url"]
        [[("name", some "t"), ("username", some "u"), ("url", some "w")]]
        [] = Except.error () :=
  ⟨⟨("password", "password"), by decide, by decide⟩,
   (C8_missing_column_error [("title", "name"), ("password", "password"),
      ("login", "username"), ("url", "url")] false
      ["name", "username", "url"]
      [[("name", some "t"), ("username", some "u"), ("url", some "w")]] []
      ⟨("password", "password"), by decide, by decide⟩).1⟩

/-! ### C3: the password key through parsing and cleaning -/

theorem hasKey_dset_self (k : String) (v : PyVal) (e : Entry) :
    hasKey k (dset k v e) = true := by
  rw [hasKey, dlookup_dset_self]; rfl

theorem hasKey_dset_preserve (k k1 : String) (v : PyVal) (e : Entry)
    (h : hasKey k e = true) : hasKey k (dset k1 v e) = true := by
  by_cases hk : k1 = k
  · subst hk; exact hasKey_dset_self _ _ _
  · rw [hasKey, dlookup_dset_ne _ _ _ _ hk]; exact h

theorem foldl_csvStep_hasKey (keys : List (String × String)) (k : String) :
    ∀ ks (st : Entry × Entry), (hasKey k st.1 = true ∨ k ∈ ks) →
      hasKey k (List.foldl (csvStep keys) st ks).1 = true := by
  intro ks
  induction ks with
  | nil =>
    intro st h
    rcases h with h | h
    · simpa using h
    · simp at h
  | cons key ks ih =>
    intro st h
    rw [List.foldl_cons]
    apply ih
    rcases h with h | h
    · exact Or.inl (hasKey_dset_preserve _ _ _ _ h)
    · rcases List.mem_cons.mp h with h | h
      · subst h; exact Or.inl (hasKey_dset_self _ _ _)
      · exact Or.inr h

theorem foldl_extraStep_hasKey (row : Entry) (k : String) :
    ∀ l (e : Entry), hasKey k e = true →
      hasKey k (List.foldl (extraStep row) e l) = true := by
  intro l
  induction l with
  | nil => intro e h; simpa using h
  | cons kv l ih =>
    intro e h
    rw [List.foldl_cons]
    exact ih _ (hasKey_dset_preserve _ _ _ _ h)

theorem csvEntry_hasKey (keys : List (String × String)) (extra : Bool)
    (row : Entry) (k : String) (hk : k ∈ keyslist) :
    hasKey k (csvEntry keys extra row) = true := by
  rw [csvEntry]
  have h1 : hasKey k (List.foldl (csvStep keys) ([], row) keyslist).1 = true :=
    foldl_csvStep_hasKey keys k keyslist ([], row) (Or.inr hk)
  by_cases he : extra
  · simpa [he] using foldl_extraStep_hasKey _ k _ _ h1
  · simpa [he] using h1

theorem createPath_snd (cl cv : Bool) (sep : String) (e : Entry)
    (p : String) : (createPath cl cv sep e p).2 = derase "title" e := by
  rw [createPath]
  dsimp only
  split <;> rfl

theorem cleanEntry_values (cl cv : Bool) (sep : String) (e : Entry)
    (k : String) (v : PyVal)
    (h : dlookup k (cleanEntry cl cv sep e) = some v) :
    k = "path" ∨ truthy v = true := by
  by_cases hp : k = "path"
  · exact Or.inl hp
  · right
    simp only [cleanEntry] at h
    rw [dlookup_dset_ne _ _ _ _ (fun hh => hp hh.symm), createPath_snd] at h
    have h1 := (derase_sublist "title" _).subset (dlookup_mem _ _ _ h)
    have h2 := (derase_sublist "group" _).subset h1
    simpa using (List.mem_filter.mp h2).2

/-- C3 (counterexample): the claim fails in two ways.  An empty-string
`password` is *not* retained through the empty-field-removal step of
`clean()` — the key is removed like any other falsy field.  And after CSV
parsing a password absent from the row is stored as `None`, not as the
empty string. -/
theorem C3_counterexample :
    dlookup "password" (cleanEntry false false "-"
        [("title", some "Ex"), ("password", some "")]) = none ∧
    dlookup "password" (csvEntry [("title", "name"), ("password", "password"),
        ("login", "username"), ("url", "url")] false
        [("name", some "t"), ("password", none), ("username", none),
         ("url", none)]) = some none ∧
    (some none : Option PyVal) ≠ some (some "") := by
  refine ⟨by decide, by decide, by decide⟩

/-- C3 (amended): after CSV parsing every entry carries the `password` key
(with value `None`, not `''`, when the column is absent from the row), and
the empty-field-removal step of `clean()` removes *every* key whose value is
falsy — the empty-string `password` included — so every surviving key other
than `path` has a truthy value. -/
theorem C3_amended_password_key (keys : List (String × String)) (extra : Bool)
    (row : Entry) (cl cv : Bool) (sep : String) (e : Entry) (k : String)
    (v : PyVal) :
    hasKey "password" (csvEntry keys extra row) = true ∧
    (dlookup k (cleanEntry cl cv sep e) = some v →
      k = "path" ∨ truthy v = true) :=
  ⟨csvEntry_hasKey keys extra row "password" (by decide),
   fun h => cleanEntry_values cl cv sep e k v h⟩

theorem C3_witness :
    hasKey "password" (csvEntry [("password", "pw")] false
        [("pw", some "s")]) = true ∧
    (dlookup "login" (cleanEntry false false "-"
        [("login", some "u")]) = some (some "u") →
      "login" = "path" ∨ truthy (some "u") = true) ∧
    ("login" = "path" ∨ truthy (some "u") = true) :=
  ⟨(C3_amended_password_key [("password", "pw")] false [("pw", some "s")]
      false false "-" [("login", some "u")] "login" (some "u")).1,
   (C3_amended_password_key [("password", "pw")] false [("pw", some "s")]
      false false "-" [("login", some "u")] "login" (some "u")).2,
   (C3_amended_password_key [("password", "pw")] false [("pw", some "s")]
      false false "-" [("login", some "u")] "login" (some "u")).2 (by decide)⟩

/-! ### C7: PIF `_getvalue` precedence and removal -/

theorem derase_of_lookup_none (k : String) (e : Entry)
    (h : dlookup k e = none) : derase k e = e := by
  induction e with
  | nil => rfl
  | cons kv e ih =>
    obtain ⟨k1, v1⟩ := kv
    by_cases h1 : k1 = k
    · rw [dlookup, if_pos h1] at h; cases h
    · rw [dlookup, if_neg h1] at h
      rw [derase, if_neg h1, ih h]

theorem popD_snd (d : Entry) (k : String) (dflt : PyVal) :
    (popD d k dflt).2 = derase k d := by
  rw [popD]
  cases h : dlookup k d with
  | none => exact (derase_of_lookup_none k d h).symm
  | some v => rfl

theorem popD_fst_present (d : Entry) (k : String) (dflt v : PyVal)
    (h : dlookup k d = some v) : (popD d k dflt).1 = v := by
  rw [popD, h]

theorem popD_fst_absent (d : Entry) (k : String) (dflt : PyVal)
    (h : dlookup k d = none) : (popD d k dflt).1 = dflt := by
  rw [popD, h]

theorem getvalue_containers (k : String) (item scontent : Entry)
    (fields : List Entry) :
    (getvalue k item scontent fields).2.1 = derase k item ∧
    (getvalue k item scontent fields).2.2.1 = derase k scontent := by
  rw [getvalue]
  split
  · exact ⟨popD_snd _ _ _, popD_snd _ _ _⟩
  · split
    · exact ⟨popD_snd _ _ _, popD_snd _ _ _⟩
    · exact ⟨popD_snd _ _ _, popD_snd _ _ _⟩

/-- C7 (counterexample): when a key is present both at top level and inside
the secure-contents object, `_getvalue` returns the secure-contents value —
`value = scontent.pop(jsonkey, value)` overrides the top-level pop — not the
top-level one as claimed. -/
theorem C7_counterexample :
    (getvalue "k" [("k", some "top")] [("k", some "sec")] []).1 =
      some "sec" ∧
    (getvalue "k" [("k", some "top")] [("k", some "sec")] []).1 ≠
      some "top" := by
  constructor
  · decide
  · decide

/-- C7 (amended): the extracted value is taken first from the nested
secure-contents object, then from the record's top-level keys, then from the
named field-object list; the top-level and secure-contents occurrences of
the key are removed unconditionally, and the field list is left untouched
whenever the value was supplied as a string by one of the two objects. -/
theorem C7_amended_precedence (k : String) (item scontent : Entry)
    (fields : List Entry) :
    ((getvalue k item scontent fields).2.1 = derase k item ∧
     (getvalue k item scontent fields).2.2.1 = derase k scontent) ∧
    (∀ s, dlookup k scontent = some (some s) →
      (getvalue k item scontent fields).1 = some s ∧
      (getvalue k item scontent fields).2.2.2 = fields) ∧
    (dlookup k scontent = none → ∀ s, dlookup k item = some (some s) →
      (getvalue k item scontent fields).1 = some s ∧
      (getvalue k item scontent fields).2.2.2 = fields) := by
  refine ⟨getvalue_containers k item scontent fields, ?_, ?_⟩
  · intro s hs
    rw [getvalue]
    rw [popD_fst_present _ _ _ _ hs]
    exact ⟨rfl, rfl⟩
  · intro hnone s hs
    rw [getvalue]
    rw [popD_fst_absent _ _ _ hnone, popD_fst_present _ _ _ _ hs]
    exact ⟨rfl, rfl⟩

theorem C7_witness :
    ((getvalue "u" [("u", some "a")] [("u", some "b")] []).2.1 =
        derase "u" [("u", some "a")] ∧
     (getvalue "u" [("u", some "a")] [("u", some "b")] []).2.2.1 =
        derase "u" [("u", some "b")]) ∧
    ((getvalue "u" [("u", some "a")] [("u", some "b")] []).1 = some "b" ∧
     (getvalue "u" [("u", some "a")] [("u", some "b")] []).2.2.2 = []) :=
  ⟨(C7_amended_precedence "u" [("u", some "a")] [("u", some "b")] []).1,
   (C7_amended_precedence "u" [("u", some "a")] [("u", some "b")] []).2.1
     "b" (by decide)⟩

/-! ### C5/C6: the transliteration passes as character maps -/

theorem charMap_append (f : Char → List Char) (l1 l2 : List Char) :
    charMap f (l1 ++ l2) = charMap f l1 ++ charMap f l2 := by
  induction l1 with
  | nil => rfl
  | cons c l ih => simp [charMap, ih]

theorem charMap_charMap (f g : Char → List Char) (l : List Char) :
    charMap f (charMap g l) = charMap (fun c => charMap f (g c)) l := by
  induction l with
  | nil => rfl
  | cons c l ih => simp [charMap, charMap_append, ih]

theorem charMap_congr (f g : Char → List Char) (h : ∀ c, f c = g c)
    (l : List Char) : charMap f l = charMap g l := by
  induction l with
  | nil => rfl
  | cons c l ih => simp [charMap, h c, ih]

theorem charMap_fix (f : Char → List Char) (l : List Char)
    (h : ∀ c ∈ l, f c = [c]) : charMap f l = l := by
  induction l with
  | nil => rfl
  | cons c l ih =>
    rw [charMap, h c (List.mem_cons_self c l), ih (fun x hx => h x (List.mem_cons_of_mem c hx))]
    rfl

theorem mem_charMap (f : Char → List Char) (l : List Char) (x : Char)
    (h : x ∈ charMap f l) : ∃ a ∈ l, x ∈ f a := by
  induction l with
  | nil => simp [charMap] at h
  | cons c l ih =>
    rw [charMap] at h
    rcases List.mem_append.mp h with h | h
    · exact ⟨c, List.mem_cons_self c l, h⟩
    · obtain ⟨a, ha, hx⟩ := ih h
      exact ⟨a, List.mem_cons_of_mem c ha, hx⟩

theorem pyReplaceAux_single (a : Char) (w : List Char) :
    ∀ s fuel, s.length ≤ fuel →
      pyReplaceAux [a] w fuel s = charMap (rep1 a w) s := by
  intro s
  induction s with
  | nil => intro fuel _; cases fuel <;> rfl
  | cons c cs ih =>
    intro fuel hlen
    cases fuel with
    | zero => simp at hlen
    | succ f =>
      simp only [pyReplaceAux]
      have hlen2 : cs.length ≤ f := by simpa using hlen
      by_cases hc : c = a
      · subst hc
        rw [if_pos (by simp [List.isPrefixOf])]
        simp [charMap, rep1, ih f hlen2]
      · rw [if_neg (by simp [List.isPrefixOf, Ne.symm hc])]
        simp [charMap, rep1, hc, ih f hlen2]

theorem pyReplace_single (a : Char) (o w s : String) (ho : o.data = [a]) :
    (pyReplace o w s).data = charMap (rep1 a w.data) s.data := by
  rw [pyReplace, ho]
  exact pyReplaceAux_single a w.data s.data s.data.length (Nat.le_refl _)

theorem replaces_data (tbl : List (Char × List Char)) :
    ∀ stbl : List (String × String),
      stbl.map (fun kv => (kv.1.data, kv.2.data)) =
        tbl.map (fun aw => ([aw.1], aw.2)) →
      ∀ s : String, (replaces stbl s).data = charMap (tableFun tbl) s.data := by
  induction tbl with
  | nil =>
    intro stbl h s
    simp only [List.map_nil, List.map_eq_nil_iff] at h
    subst h
    rw [replaces, List.foldl_nil, charMap_fix]
    intro c _
    rfl
  | cons aw tbl ih =>
    intro stbl h s
    cases stbl with
    | nil => simp at h
    | cons kv stbl2 =>
      simp only [List.map_cons, List.cons.injEq, Prod.mk.injEq] at h
      obtain ⟨⟨h1, h2⟩, h3⟩ := h
      rw [replaces, List.foldl_cons]
      have hrest := ih stbl2 h3 (pyReplace kv.1 kv.2 s)
      rw [replaces] at hrest
      rw [hrest, pyReplace_single aw.1 kv.1 kv.2 s h1, h2,
        charMap_charMap]
      rfl

theorem tableFun_cons_ne (a : Char) (v : List Char)
    (tbl : List (Char × List Char)) (c : Char) (h : c ≠ a) :
    tableFun ((a, v) :: tbl) c = tableFun tbl c := by
  rw [tableFun, rep1]
  rw [if_neg h]
  simp [charMap]

theorem tableFun_not_mem (c : Char) :
    ∀ tbl : List (Char × List Char), (∀ aw ∈ tbl, c ≠ aw.1) →
      tableFun tbl c = [c] := by
  intro tbl
  induction tbl with
  | nil => intro _; rfl
  | cons aw tbl ih =>
    intro h
    obtain ⟨a, v⟩ := aw
    rw [tableFun_cons_ne a v tbl c (h (a, v) (List.mem_cons_self _ _))]
    exact ih (fun x hx => h x (List.mem_cons_of_mem _ hx))

theorem convFun_eq (c : Char) : tableFun convTbl c = Fconv '-' c := by
  by_cases hc : c ∈ invalidChars
  · fin_cases hc <;> decide
  · rw [Fconv, if_neg hc]
    apply tableFun_not_mem
    intro aw haw
    rw [convTbl] at haw
    obtain ⟨a, ha, rfl⟩ := List.mem_map.mp haw
    intro hca
    exact hc (by rw [hca]; exact ha)

theorem cleanFun_eq (c : Char) : tableFun cleanTbl c = Fclean c := by
  by_cases hc : c ∈ cleanChars
  · fin_cases hc <;> decide
  · have h := hc
    simp only [cleanChars, List.mem_cons, List.not_mem_nil, or_false,
      not_or] at h
    obtain ⟨n1, n2, n3, n4, n5, n6, n7⟩ := h
    rw [Fclean, if_neg n1, if_neg n2, if_neg n3, if_neg n4, if_neg n5,
      if_neg n6, if_neg n7]
    apply tableFun_not_mem
    intro aw haw
    fin_cases haw <;> assumption

theorem convert_data (s : String) :
    (convert "-" s).data = charMap (Fconv '-') s.data := by
  have h0 : convert "-" s = replaces [("<", "-"), (">", "-"), (":", "-"),
      ("\"", "-"), ("/", "-"), ("\\", "-"), ("|", "-"), ("?", "-"),
      ("*", "-"), ("\x00", "-")] s := rfl
  rw [h0, replaces_data convTbl [("<", "-"), (">", "-"), (":", "-"),
      ("\"", "-"), ("/", "-"), ("\\", "-"), ("|", "-"), ("?", "-"),
      ("*", "-"), ("\x00", "-")] (by decide) s]
  exact charMap_congr _ _ convFun_eq _

theorem pystrip_data (t : String) : (pystrip t).data = stripL t.data := rfl

theorem cleanCmdline_data (s : String) :
    (cleanCmdline s).data = charMap Fclean (stripL s.data) := by
  rw [cleanCmdline]
  rw [replaces_data cleanTbl cleans (by decide) (pystrip s)]
  rw [pystrip_data]
  exact charMap_congr _ _ cleanFun_eq _

theorem Fconv_fix (c x : Char) (h : x ∈ Fconv '-' c) :
    Fconv '-' x = [x] := by
  by_cases hc : c ∈ invalidChars
  · rw [Fconv, if_pos hc] at h
    rw [List.mem_singleton] at h
    subst h
    decide
  · rw [Fconv, if_neg hc] at h
    rw [List.mem_singleton] at h
    subst h
    rw [Fconv, if_neg hc]

theorem Fclean_fix (c x : Char) (h : x ∈ Fclean c) : Fclean x = [x] := by
  by_cases h1 : c = ' '
  · subst h1
    rw [show Fclean ' ' = ['_'] from rfl, List.mem_singleton] at h
    subst h; decide
  by_cases h2 : c = '&'
  · subst h2
    rw [show Fclean '&' = ['a', 'n', 'd'] from rfl] at h
    fin_cases h <;> decide
  by_cases h3 : c = '@'
  · subst h3
    rw [show Fclean '@' = ['A', 't'] from rfl] at h
    fin_cases h <;> decide
  by_cases h4 : c = '\x27'
  · subst h4
    rw [show Fclean '\x27' = [] from rfl] at h
    exact absurd h (List.not_mem_nil x)
  by_cases h5 : c = '['
  · subst h5
    rw [show Fclean '[' = [] from rfl] at h
    exact absurd h (List.not_mem_nil x)
  by_cases h6 : c = ']'
  · subst h6
    rw [show Fclean ']' = [] from rfl] at h
    exact absurd h (List.not_mem_nil x)
  by_cases h7 : c = '/'
  · subst h7
    rw [show Fclean '/' = ['-'] from rfl, List.mem_singleton] at h
    subst h; decide
  rw [Fclean, if_neg h1, if_neg h2, if_neg h3, if_neg h4, if_neg h5,
    if_neg h6, if_neg h7, List.mem_singleton] at h
  subst h
  rw [Fclean, if_neg h1, if_neg h2, if_neg h3, if_neg h4, if_neg h5,
    if_neg h6, if_neg h7]

theorem stripL_subset (l : List Char) (x : Char) (h : x ∈ stripL l) :
    x ∈ l := by
  rw [stripL] at h
  rw [List.mem_reverse] at h
  have h1 := (List.dropWhile_sublist _).subset h
  rw [List.mem_reverse] at h1
  exact (List.dropWhile_sublist _).subset h1

/-- C5 (counterexample): `_clean_cmdline` is not idempotent.  On `"a\t\x27"`
(letter, tab, apostrophe) the first application strips nothing, then deletes
the apostrophe, leaving a trailing tab; the second application strips that
tab. -/
theorem C5_counterexample :
    cleanCmdline (cleanCmdline "a\t\x27") ≠ cleanCmdline "a\t\x27" := by
  decide

/-- C5 (amended): `_convert` (with the default separator `-`) is idempotent;
`_clean_cmdline` is idempotent only up to a final whitespace strip: a second
application equals stripping the first application's result, because
character deletions can expose leading or trailing non-space whitespace that
only the second `strip()` removes. -/
theorem C5_amended_idempotence :
    (∀ s, convert "-" (convert "-" s) = convert "-" s) ∧
    (∀ s, cleanCmdline (cleanCmdline s) = pystrip (cleanCmdline s)) := by
  constructor
  · intro s
    apply string_eq_of_data
    rw [convert_data, convert_data, charMap_fix]
    intro x hx
    obtain ⟨a, _, hxa⟩ := mem_charMap _ _ _ hx
    exact Fconv_fix a x hxa
  · intro s
    apply string_eq_of_data
    rw [cleanCmdline_data]
    rw [pystrip_data]
    rw [cleanCmdline_data, charMap_fix]
    intro x hx
    have hx2 := stripL_subset _ _ hx
    obtain ⟨a, _, hxa⟩ := mem_charMap _ _ _ hx2
    exact Fclean_fix a x hxa

/-- C6 (counterexample): the clean transliteration does not leave `/`
unchanged — the code's table also maps `/` to `-`. -/
theorem C6_counterexample :
    cleanCmdline "a/b" = "a-b" ∧ ("a-b" : String) ≠ "a/b" := by
  constructor
  · decide
  · decide

/-- C6 (amended): `_clean_cmdline` equals trimming leading/trailing
whitespace and then applying the ordered literal substitutions
space→`_`, `&`→`and`, `@`→`At`, apostrophe→removed, `[`→removed,
`]`→removed, **and finally `/`→`-`**, as sequential passes; any string
containing none of those seven characters is changed only by the trim —
every other character, interior whitespace included, is left unchanged. -/
theorem C6_amended_table :
    (∀ s, cleanCmdline s = cleanSpecSeq s) ∧
    (∀ s, (∀ c ∈ s.data, c ∉ cleanChars) → cleanCmdline s = pystrip s) := by
  constructor
  · intro s
    rfl
  · intro s hchars
    apply string_eq_of_data
    rw [cleanCmdline_data, pystrip_data, charMap_fix]
    intro c hc
    have h := hchars c (stripL_subset _ _ hc)
    simp only [cleanChars, List.mem_cons, List.not_mem_nil, or_false,
      not_or] at h
    obtain ⟨n1, n2, n3, n4, n5, n6, n7⟩ := h
    rw [Fclean, if_neg n1, if_neg n2, if_neg n3, if_neg n4, if_neg n5,
      if_neg n6, if_neg n7]

theorem C6_witness :
    cleanCmdline "a b" = cleanSpecSeq "a b" ∧
    cleanCmdline "\tx\ty\t" = pystrip "\tx\ty\t" :=
  ⟨C6_amended_table.1 "a b",
   C6_amended_table.2 "\tx\ty\t" (by decide)⟩

/-! ### C9: serialization round-trip for `password` and `login` -/

theorem splitLines_ne_nil (l : List Char) : splitLines l ≠ [] := by
  cases l with
  | nil => simp [splitLines]
  | cons c cs =>
    rw [splitLines]
    cases h : splitLines cs with
    | nil => simp
    | cons a as =>
      by_cases hc : c = '\n' <;> simp [hc]

theorem splitLines_append (p rest : List Char) (hp : '\n' ∉ p) :
    splitLines (p ++ '\n' :: rest) = p :: splitLines rest := by
  induction p with
  | nil =>
    rw [List.nil_append, splitLines]
    cases h : splitLines rest with
    | nil => exact absurd h (splitLines_ne_nil rest)
    | cons a as => simp
  | cons c p ih =>
    have hc : c ≠ '\n' := fun hh => hp (hh ▸ List.mem_cons_self c p)
    have hp2 : '\n' ∉ p := fun hh => hp (List.mem_cons_of_mem c hh)
    rw [List.cons_append, splitLines, ih hp2]
    simp [hc]

theorem splitKV_of_key (k v : List Char) (hk : noColonSpace k = true) :
    splitKVchars (k ++ ':' :: ' ' :: v) = (k, v) := by
  induction k with
  | nil =>
    rw [List.nil_append, splitKVchars, if_pos ⟨rfl, rfl⟩]
    rfl
  | cons c k ih =>
    rw [noColonSpace, Bool.and_eq_true] at hk
    obtain ⟨hk1, hk2⟩ := hk
    have hcond : ¬(c = ':' ∧ ((k ++ ':' :: ' ' :: v).take 1 = [' '])) := by
      cases k with
      | nil =>
        intro hcontra
        have := hcontra.2
        simp at this
      | cons c2 k2 =>
        intro hcontra
        have hor : ¬c = ':' ∨ ¬c2 = ' ' := by simpa using hk1
        rcases hor with h | h
        · exact h hcontra.1
        · exact h (by simpa using hcontra.2)
    rw [List.cons_append, splitKVchars, if_neg hcond, ih hk2]

theorem findKV_serialize (key : String) (hkp : key ≠ "path") :
    ∀ e : Entry,
      (∀ kv ∈ e, kv.2 ≠ none ∧ '\n' ∉ (pyStr kv.2).data) →
      (∀ kv ∈ e, '\n' ∉ kv.1.data ∧ noColonSpace kv.1.data = true) →
      ∀ l, dlookup key e = some (some l) →
      findKV key.data (splitLines (serializeFields e).data) = some l.data := by
  intro e
  induction e with
  | nil => intro _ _ l hl; simp [dlookup] at hl
  | cons kv rest ih =>
    intro hvals hkeys l hl
    obtain ⟨k1, v1⟩ := kv
    have hvals2 : ∀ kv ∈ rest, kv.2 ≠ none ∧ '\n' ∉ (pyStr kv.2).data :=
      fun kv hkv => hvals kv (List.mem_cons_of_mem _ hkv)
    have hkeys2 : ∀ kv ∈ rest, '\n' ∉ kv.1.data ∧ noColonSpace kv.1.data = true :=
      fun kv hkv => hkeys kv (List.mem_cons_of_mem _ hkv)
    by_cases hk1 : k1 = "path"
    · subst hk1
      rw [serializeFields, if_pos rfl]
      have hd : (("" : String) ++ serializeFields rest).data =
          (serializeFields rest).data := by
        rw [data_append]; rfl
      rw [hd]
      have hlk : dlookup key rest = some (some l) := by
        rw [dlookup, if_neg (Ne.symm hkp)] at hl
        exact hl
      exact ih hvals2 hkeys2 l hlk
    · rw [serializeFields, if_neg hk1]
      have hcolon : (": " : String).data = [':', ' '] := rfl
      have hnl0 : ("\n" : String).data = ['\n'] := rfl
      have hline : ((k1 ++ ": " ++ pyStr v1 ++ "\n") ++ serializeFields rest).data =
          (k1.data ++ ':' :: ' ' :: (pyStr v1).data) ++
            '\n' :: (serializeFields rest).data := by
        simp [data_append, hcolon, hnl0, List.append_assoc]
      rw [hline]
      have hnl : '\n' ∉ k1.data ++ ':' :: ' ' :: (pyStr v1).data := by
        have h1 := (hkeys (k1, v1) (List.mem_cons_self _ _)).1
        have h2 := (hvals (k1, v1) (List.mem_cons_self _ _)).2
        intro hmem
        rcases List.mem_append.mp hmem with h | h
        · exact h1 h
        · rw [List.mem_cons, List.mem_cons] at h
          rcases h with h | h | h
          · exact absurd h (by decide)
          · exact absurd h (by decide)
          · exact h2 h
      rw [splitLines_append _ _ hnl, findKV,
        splitKV_of_key k1.data (pyStr v1).data
          (hkeys (k1, v1) (List.mem_cons_self _ _)).2]
      by_cases hkey : k1 = key
      · subst hkey
        rw [if_pos rfl]
        rw [dlookup, if_pos rfl] at hl
        have hv : v1 = some l := by
          cases hl
          rfl
        subst hv
        rfl
      · rw [if_neg (fun hdata => hkey (string_eq_of_data _ _ hdata))]
        rw [dlookup, if_neg hkey] at hl
        exact ih hvals2 hkeys2 l hl

/-- C9 (counterexample): the round-trip does not hold for arbitrary string
values.  A password containing a newline is broken by line-splitting: the
recovered password is only its first line. -/
theorem C9_counterexample :
    recoverPassword (getString [("password", some "a\nb"),
        ("login", some "u")]) = "a" ∧
    ("a" : String) ≠ "a\nb" := by
  constructor
  · decide
  · decide

/-- C9 (amended): for every entry whose values are strings without embedded
newlines and whose keys contain no newline and no `": "` substring,
serializing with `get` and re-splitting on the first line and on the first
`": "` of each subsequent line recovers the exact `password` and `login`
values, embedded whitespace included. -/
theorem C9_amended_roundtrip (e : Entry) (p l : String)
    (hpw : dlookup "password" e = some (some p))
    (hlog : dlookup "login" e = some (some l))
    (hvals : ∀ kv ∈ e, kv.2 ≠ none ∧ '\n' ∉ (pyStr kv.2).data)
    (hkeys : ∀ kv ∈ e, '\n' ∉ kv.1.data ∧ noColonSpace kv.1.data = true) :
    recoverPassword (getString e) = p ∧
    recoverField "login" (getString e) = some l := by
  have hpnl : '\n' ∉ p.data := by
    have := (hvals ("password", some p) (dlookup_mem _ _ _ hpw)).2
    simpa [pyStr] using this
  have hgd : (getString e).data =
      p.data ++ '\n' :: (serializeFields (derase "password" e)).data := by
    rw [getString, hpw]
    have hnl0 : ("\n" : String).data = ['\n'] := rfl
    simp [pyStr, data_append, hnl0, List.append_assoc]
  have hsplit : splitLines (getString e).data =
      p.data :: splitLines (serializeFields (derase "password" e)).data := by
    rw [hgd]
    exact splitLines_append _ _ hpnl
  constructor
  · rw [recoverPassword, hsplit]
    exact mk_data p
  · rw [recoverField, hsplit]
    simp only [List.tail_cons]
    rw [findKV_serialize "login" (by decide) (derase "password" e)
      (fun kv hkv => hvals kv ((derase_sublist _ _).subset hkv))
      (fun kv hkv => hkeys kv ((derase_sublist _ _).subset hkv)) l
      (by
        rw [dlookup_derase_ne _ _ _ (by decide)]
        exact hlog)]
    simp [mk_data]

theorem C9_witness :
    recoverPassword (getString [("title", some "t"),
        ("password", some "pw 1"), ("login", some "my user"),
        ("path", some "x")]) = "pw 1" ∧
    recoverField "login" (getString [("title", some "t"),
        ("password", some "pw 1"), ("login", some "my user"),
        ("path", some "x")]) = some "my user" :=
  C9_amended_roundtrip [("title", some "t"), ("password", some "pw 1"),
      ("login", some "my user"), ("path", some "x")] "pw 1" "my user"
    (by decide) (by decide) (by decide) (by decide)

end PassImport
